import Mathlib

/-!
Verification of the konk command orchestrator against its specification.

The repository ships only its README (documentation of behavior) and
`block.js` (a signal-handling test child) under `src/`; the orchestrator
itself (Command Spec Resolver, Process Supervisor, Output Multiplexer,
Run Coordinator, Signal Relay) is not present there.  Those components
are therefore modelled from the specification text; `block.js` is
embedded directly from its source.
-/

/-- Modelled from the spec: the resolver and orchestrator sources are not
under `src/`.  `CommandSpec {label, command, index}`, immutable once
resolved (spec section 3). -/
structure CommandSpec where
  label : String
  command : String
  index : Nat
deriving DecidableEq, Repr

/-- Modelled from the spec: ProcessHandle states
`Pending | Running | Signaled | Exited` (spec section 3). -/
inductive ProcState where
  | Pending
  | Running
  | Signaled
  | Exited
deriving DecidableEq, Repr

/-- Position of a state along the monotone lifecycle
Pending to Running to Signaled to Exited. -/
def ProcState.rank : ProcState → Nat
  | .Pending => 0
  | .Running => 1
  | .Signaled => 2
  | .Exited => 3

/-- Modelled from the spec: events a Process Supervisor applies to its
ProcessHandle: spawn, graceful signal delivery, child exit. -/
inductive SupEvent where
  | spawned (pid : Nat)
  | signalSent
  | childExited (code : Int)
deriving DecidableEq, Repr

/-- Modelled from the spec: the ProcessHandle state transition performed
for each supervisor event.  Events that do not apply in the current
state leave it unchanged (the supervisor never rewinds a handle). -/
def ProcState.step : ProcState → SupEvent → ProcState
  | .Pending, .spawned _ => .Running
  | .Running, .signalSent => .Signaled
  | .Running, .childExited _ => .Exited
  | .Signaled, .childExited _ => .Exited
  | s, _ => s

/-- Modelled from the spec: a ProcessHandle, owned by one Process
Supervisor (spec section 3). -/
structure ProcessHandle where
  spec : CommandSpec
  pid : Option Nat
  state : ProcState
  exit_code : Option Int
deriving DecidableEq, Repr

/-- Modelled from the spec: at the start of a run the Run Coordinator
creates exactly one Pending ProcessHandle for each resolved
CommandSpec. -/
def mkHandles (specs : List CommandSpec) : List ProcessHandle :=
  specs.map fun s => ⟨s, none, ProcState.Pending, none⟩

/-- Modelled from the spec: how one command is reported in RunResult:
it ran and exited with a code, or it was skipped and is reported as
not run (spec section 4.3). -/
inductive CmdReport where
  | exited (code : Int)
  | notRun
deriving DecidableEq, Repr

/-- Modelled from the spec: `RunResult {per_command, aggregate_exit_code}`
(spec section 3). -/
structure RunResult where
  per_command : List (CommandSpec × CmdReport)
  aggregate_exit_code : Int
deriving DecidableEq, Repr

/-- Modelled from the spec: aggregate exit-code policy (spec section 4.3):
0 iff every run command exited 0; otherwise the exit code of the first
failing command (the convention chosen and documented here). -/
def aggregateExit : List (CommandSpec × CmdReport) → Int
  | [] => 0
  | (_, CmdReport.exited c) :: rest => if c ≠ 0 then c else aggregateExit rest
  | (_, CmdReport.notRun) :: rest => aggregateExit rest

/-- Modelled from the spec: serial execution (spec section 4.3).  Commands
run one at a time in CommandSpec order; `exit` gives the code each
command exits with when run.  After a non-zero exit with
continue-on-failure false, the remaining commands are skipped and
reported as not run. -/
def serialReports (cont : Bool) (exit : CommandSpec → Int) :
    List CommandSpec → List (CommandSpec × CmdReport)
  | [] => []
  | s :: rest =>
    if exit s ≠ 0 ∧ cont = false then
      (s, CmdReport.exited (exit s)) :: rest.map fun r => (r, CmdReport.notRun)
    else
      (s, CmdReport.exited (exit s)) :: serialReports cont exit rest

/-- Modelled from the spec: a serial run's RunResult. -/
def runSerial (cont : Bool) (exit : CommandSpec → Int)
    (specs : List CommandSpec) : RunResult :=
  ⟨serialReports cont exit specs, aggregateExit (serialReports cont exit specs)⟩

/-- Modelled from the spec: a concurrent run's RunResult: all commands are
spawned together and each completion is consumed; every command runs to
an exit code. -/
def runConcurrent (exit : CommandSpec → Int)
    (specs : List CommandSpec) : RunResult :=
  ⟨specs.map fun s => (s, CmdReport.exited (exit s)),
   aggregateExit (specs.map fun s => (s, CmdReport.exited (exit s)))⟩

/-- The commands a run actually spawned: those whose report is an exit. -/
def spawnedOf (reports : List (CommandSpec × CmdReport)) : List CommandSpec :=
  reports.filterMap fun p =>
    match p.2 with
    | CmdReport.exited _ => some p.1
    | CmdReport.notRun => none

/-- Modelled from the spec: the `ConfigurationError` taxonomy (spec
section 7): label count mismatch, or an empty / whitespace-only
command string. -/
inductive ConfigurationError where
  | labelCountMismatch (labels commands : Nat)
  | emptyCommand (index : Nat)
deriving DecidableEq, Repr

/-- A command string that is empty or whitespace-only. -/
def isBlankCommand (s : String) : Bool :=
  s.trim.isEmpty

/-- Modelled from the spec: the label a command receives: the explicit
user-supplied label when a label list was given, the command text in
command-as-label mode, or the index as a string. -/
def labelFor (labels : Option (List String)) (commandAsLabel : Bool)
    (i : Nat) (cmd : String) : String :=
  match labels with
  | some ls => ls.getD i ""
  | none => if commandAsLabel then cmd else toString i

/-- Modelled from the spec: the Command Spec Resolver (spec sections 3
and 7), whose source is not under `src/`.  Resolution fails with a
`ConfigurationError` when an explicit label list's length differs from
the command count, or when some command string is blank; otherwise it
yields one CommandSpec per command, in order. -/
def resolveSpecs (labels : Option (List String)) (commandAsLabel : Bool)
    (commands : List String) : Except ConfigurationError (List CommandSpec) :=
  match labels with
  | some ls =>
    if ls.length ≠ commands.length then
      Except.error (ConfigurationError.labelCountMismatch ls.length commands.length)
    else
      match commands.findIdx? isBlankCommand with
      | some i => Except.error (ConfigurationError.emptyCommand i)
      | none =>
        Except.ok (commands.enum.map fun p =>
          ⟨labelFor labels commandAsLabel p.1 p.2, p.2, p.1⟩)
  | none =>
    match commands.findIdx? isBlankCommand with
    | some i => Except.error (ConfigurationError.emptyCommand i)
    | none =>
      Except.ok (commands.enum.map fun p =>
        ⟨labelFor labels commandAsLabel p.1 p.2, p.2, p.1⟩)

/-- What the orchestrator did for one invocation: which commands it
spawned, its own exit code, and the configuration error, if any. -/
structure Orchestration where
  spawned : List CommandSpec
  exitCode : Int
  cfgError : Option ConfigurationError
deriving DecidableEq, Repr

/-- Modelled from the spec: the orchestrator top level (spec section 7):
resolution runs before anything spawns; on a `ConfigurationError` the
orchestrator exits non-zero (code 1) without launching any command;
otherwise it runs the resolved specs serially and exits with the
aggregate exit code. -/
def orchestrateSerial (labels : Option (List String)) (commandAsLabel : Bool)
    (cont : Bool) (exit : CommandSpec → Int) (commands : List String) :
    Orchestration :=
  match resolveSpecs labels commandAsLabel commands with
  | Except.error e => ⟨[], 1, some e⟩
  | Except.ok specs =>
    let r := runSerial cont exit specs
    ⟨spawnedOf r.per_command, r.aggregate_exit_code, none⟩

/-- The POSIX signals the supervisor deals with. -/
inductive Sig where
  | SIGINT
  | SIGTERM
  | SIGKILL
deriving DecidableEq, Repr

/-- Modelled from the spec: kill-timeout escalation by the Process
Supervisor (spec section 4.1; README: time in seconds for commands to
exit after receiving a SIGINT/SIGTERM before a SIGKILL is sent).  Time
is in whole seconds.  `sentAt` is when the graceful signal was sent;
`childExitsAt`, when the child would exit on its own (`none` if it
ignores the signal).  The result is the forceful signal and the time it
is sent, or `none` when the child exited within the grace period and no
escalation happens. -/
def escalation (kill_timeout sentAt : Nat) (childExitsAt : Option Nat) :
    Option (Sig × Nat) :=
  match childExitsAt with
  | some t =>
    if t ≤ sentAt + kill_timeout then none
    else some (Sig.SIGKILL, sentAt + kill_timeout)
  | none => some (Sig.SIGKILL, sentAt + kill_timeout)

/-- Modelled from the spec: an action the Signal Relay triggers: the
cascade delivers the received signal kind to every active supervisor
and starts each one's kill-timeout timer (spec section 4.4). -/
inductive RelayAction where
  | cascade (kind : Sig)
deriving DecidableEq, Repr

/-- Modelled from the spec: the Signal Relay's one-shot latch state
(spec sections 4.4 and 9). -/
structure RelayState where
  shuttingDown : Bool
deriving DecidableEq, Repr

/-- Modelled from the spec: handling one signal received by the
orchestrator process.  The first signal sets the latch and triggers the
cascade; any signal received while shutdown is in progress is ignored:
no timer restarts, no re-sent signals. -/
def relayStep (st : RelayState) (kind : Sig) : RelayState × List RelayAction :=
  if st.shuttingDown then (st, [])
  else (⟨true⟩, [RelayAction.cascade kind])

/-- Modelled from the spec: the relay processing a sequence of received
signals, collecting the actions triggered. -/
def relayRun : RelayState → List Sig → RelayState × List RelayAction
  | st, [] => (st, [])
  | st, k :: ks =>
    ((relayRun (relayStep st k).1 ks).1,
     (relayStep st k).2 ++ (relayRun (relayStep st k).1 ks).2)

/-- Labels right-padded with spaces to the given width. -/
def padLabel (width : Nat) (label : String) : String :=
  label ++ String.mk (List.replicate (width - label.length) ' ')

/-- The width of the longest label in a run. -/
def maxLabelWidth (labels : List String) : Nat :=
  labels.foldr (fun l acc => max l.length acc) 0

/-- Modelled from the spec: interleaved-mode output line with label
display enabled, as in the README examples: a bracketed padded label,
a space, then the line. -/
def fmtLine (width : Nat) (label line : String) : String :=
  "[" ++ padLabel width label ++ "] " ++ line

/-- Modelled from the spec: the completion report line,
`[<label>] exit status: <code>`. -/
def fmtExit (width : Nat) (label : String) (code : Int) : String :=
  "[" ++ padLabel width label ++ "] exit status: " ++ toString code

/-- Modelled from the spec: an event seen by the Output Multiplexer in
aggregated mode: an output chunk (bytes) arriving from the command with
the given label, or that command's completion. -/
inductive MuxEvent where
  | chunk (owner : String) (payload : List Nat)
  | complete (owner : String)
deriving DecidableEq, Repr

/-- The owner of a completion event, `none` for a chunk. -/
def completeOwner : MuxEvent → Option String
  | MuxEvent.chunk _ _ => none
  | MuxEvent.complete o => some o

/-- Modelled from the spec: aggregated-mode multiplexer state: bytes
buffered per label, and the blocks already flushed to the terminal, in
flush order. -/
structure MuxState where
  buffers : List (String × List Nat)
  flushed : List (String × List Nat)
deriving DecidableEq, Repr

/-- The bytes currently buffered for a label. -/
def bufferOf (bufs : List (String × List Nat)) (o : String) : List Nat :=
  match bufs.find? fun p => p.1 = o with
  | some p => p.2
  | none => []

/-- Append a payload to a label's buffer. -/
def addChunk (bufs : List (String × List Nat)) (o : String)
    (payload : List Nat) : List (String × List Nat) :=
  if (bufs.find? fun p => p.1 = o).isSome then
    bufs.map fun p => if p.1 = o then (p.1, p.2 ++ payload) else p
  else
    bufs ++ [(o, payload)]

/-- Modelled from the spec: one multiplexer step in aggregated mode
(spec section 4.2): a chunk is appended to its owner's buffer; on
completion the owner's buffer is flushed as one contiguous block. -/
def muxStep (st : MuxState) : MuxEvent → MuxState
  | MuxEvent.chunk o payload => ⟨addChunk st.buffers o payload, st.flushed⟩
  | MuxEvent.complete o =>
    ⟨st.buffers.filter fun p => p.1 ≠ o,
     st.flushed ++ [(o, bufferOf st.buffers o)]⟩

/-- Modelled from the spec: running the aggregated multiplexer over a
whole event sequence, from empty state. -/
def muxRun (events : List MuxEvent) : MuxState :=
  events.foldl muxStep ⟨[], []⟩

/-- Bytes of a list of blocks laid out in order, each byte tagged with
the label of the command that produced it. -/
def annotated (blocks : List (String × List Nat)) : List (String × Nat) :=
  blocks.flatMap fun p => p.2.map fun b => (p.1, b)

/-- The final terminal stream of an aggregated run, each byte tagged
with its owning command's label. -/
def finalStream (events : List MuxEvent) : List (String × Nat) :=
  annotated (muxRun events).flushed

/-- A well-formed aggregated run: each command completes at most once. -/
def MuxWellFormed (events : List MuxEvent) : Prop :=
  (events.filterMap completeOwner).Nodup

instance : DecidablePred MuxWellFormed := fun events =>
  inferInstanceAs (Decidable ((events.filterMap completeOwner).Nodup))

/-- From `src/block.js`: the delay between a signal handler firing and
the `process.exit(0)` call it schedules (`setTimeout(.., 5000)`). -/
def exitDelayMs : Nat := 5000

/-- From `src/block.js`: the keep-alive interval period
(`setInterval(.., 1000)`). -/
def pingPeriodMs : Nat := 1000

/-- From `src/block.js`: the signals the script installs handlers for. -/
inductive BlockSig where
  | sigint
  | sigterm
deriving DecidableEq, Repr

/-- From `src/block.js`: the message each handler logs on receipt. -/
def handlerMessage : BlockSig → String
  | BlockSig.sigint => "Received SIGINT, will exit in 5s..."
  | BlockSig.sigterm => "Received SIGTERM, will exit in 5s..."

/-- Earliest time in a list of scheduled timer deadlines. -/
def earliest : List Nat → Option Nat
  | [] => none
  | t :: ts =>
    match earliest ts with
    | none => some t
    | some u => some (min t u)

/-- From `src/block.js`: each received SIGINT/SIGTERM schedules an
independent `process.exit(0)` timer `exitDelayMs` after its receipt. -/
def scheduledExitTimes (sigTimes : List Nat) : List Nat :=
  sigTimes.map fun t => t + exitDelayMs

/-- From `src/block.js`: the process exits when the earliest scheduled
exit timer fires (timers scheduled for later never run: the process is
already gone); with no signal ever received, no exit timer exists and
the keep-alive interval runs forever.  `sigTimes` lists the receipt
times (milliseconds) of the delivered signals. -/
def blockExitTime (sigTimes : List Nat) : Option Nat :=
  earliest (scheduledExitTimes sigTimes)

/-- From `src/block.js`: every exit path is `process.exit(0)`, so the
exit code is 0 whenever the process exits. -/
def blockExitCode (sigTimes : List Nat) : Option Nat :=
  (blockExitTime sigTimes).map fun _ => 0

/-- Whether the block.js process is still running at time `t`. -/
def blockAliveAt (sigTimes : List Nat) (t : Nat) : Bool :=
  match blockExitTime sigTimes with
  | none => true
  | some te => t < te

/-- From `src/block.js`: times at which the keep-alive interval fires
and prints "ping" (every `pingPeriodMs`, first firing one period in). -/
def isPingTime (t : Nat) : Bool :=
  decide (0 < t) && decide (t % pingPeriodMs = 0)

/-- From `src/block.js`: the messages logged by the signal handlers: one
per signal received while the process is alive, tagged with its receipt
time. -/
def blockLog (signals : List (Nat × BlockSig)) : List (Nat × String) :=
  signals.filterMap fun p =>
    if blockAliveAt (signals.map Prod.fst) p.1 then
      some (p.1, handlerMessage p.2)
    else none

/-- Default CommandSpec used with `List.getD` in statements about
report positions. -/
def dSpec : CommandSpec := ⟨"", "", 0⟩

/-- Default report entry used with `List.getD`. -/
def dRep : CommandSpec × CmdReport := (dSpec, CmdReport.notRun)

/-- The edges of the ProcessHandle lifecycle:
Pending to Running, Running to Signaled or Exited, Signaled to Exited. -/
def lifecycleEdge : ProcState → ProcState → Bool
  | ProcState.Pending, ProcState.Running => true
  | ProcState.Running, ProcState.Signaled => true
  | ProcState.Running, ProcState.Exited => true
  | ProcState.Signaled, ProcState.Exited => true
  | _, _ => false

/-- A small aggregated-mode event sequence used as a concrete witness:
two commands interleave chunks, then complete. -/
def wMuxEvents : List MuxEvent :=
  [MuxEvent.chunk "a" [1], MuxEvent.chunk "b" [2], MuxEvent.chunk "a" [3],
   MuxEvent.complete "a", MuxEvent.complete "b"]

theorem aggregateExit_eq_zero_iff (reports : List (CommandSpec × CmdReport)) :
    aggregateExit reports = 0 ↔
      ∀ p ∈ reports, ∀ c : Int, p.2 = CmdReport.exited c → c = 0 := by
  induction reports with
  | nil => simp [aggregateExit]
  | cons hd tl ih =>
    obtain ⟨s, r⟩ := hd
    cases r with
    | exited c =>
      by_cases hc : c = 0
      · subst hc
        simp [aggregateExit, ih]
      · simp only [aggregateExit, if_pos hc]
        constructor
        · intro h
          exact absurd h hc
        · intro h
          exact absurd (h (s, CmdReport.exited c) (by simp) c rfl) hc
    | notRun =>
      simp [aggregateExit, ih]

/-- C1: For every run, the aggregate exit code in RunResult is 0 if and
only if every command that was run exited with code 0; otherwise the
aggregate exit code is non-zero.  Stated for serial runs (either
continue-on-failure policy) and concurrent runs. -/
theorem aggregate_exit_zero_iff_all_zero (cont : Bool)
    (exit : CommandSpec → Int) (specs : List CommandSpec) :
    ((runSerial cont exit specs).aggregate_exit_code = 0 ↔
      ∀ p ∈ (runSerial cont exit specs).per_command, ∀ c : Int,
        p.2 = CmdReport.exited c → c = 0) ∧
    ((runConcurrent exit specs).aggregate_exit_code = 0 ↔
      ∀ p ∈ (runConcurrent exit specs).per_command, ∀ c : Int,
        p.2 = CmdReport.exited c → c = 0) :=
  ⟨aggregateExit_eq_zero_iff _, aggregateExit_eq_zero_iff _⟩

theorem rank_le_step (s : ProcState) (e : SupEvent) :
    s.rank ≤ (s.step e).rank := by
  cases s <;> cases e <;> simp [ProcState.step, ProcState.rank]

/-- C4: For every run, each resolved CommandSpec has exactly one
corresponding ProcessHandle, and every ProcessHandle's state moves only
monotonically along Pending to Running to (optionally Signaled to)
Exited; no event sequence ever moves a handle to an earlier state. -/
theorem handles_one_per_spec_and_monotone (specs : List CommandSpec) :
    (mkHandles specs).map ProcessHandle.spec = specs ∧
    (mkHandles specs).length = specs.length ∧
    (∀ s : ProcState, ∀ e : SupEvent,
      ProcState.step s e = s ∨ lifecycleEdge s (ProcState.step s e) = true) ∧
    (∀ s : ProcState, ∀ events : List SupEvent,
      s.rank ≤ (events.foldl ProcState.step s).rank) := by
  refine ⟨?_, ?_, ?_, ?_⟩
  · induction specs with
    | nil => rfl
    | cons s r ih =>
      have hcons : (mkHandles (s :: r)).map ProcessHandle.spec =
          s :: (mkHandles r).map ProcessHandle.spec := rfl
      rw [hcons, ih]
  · simp [mkHandles]
  · intro s e
    cases s <;> cases e <;> simp [ProcState.step, lifecycleEdge]
  · intro s events
    induction events generalizing s with
    | nil => simp
    | cons e es ih =>
      exact le_trans (rank_le_step s e) (ih (ProcState.step s e))

theorem relayRun_shuttingDown (ks : List Sig) :
    relayRun ⟨true⟩ ks = (⟨true⟩, []) := by
  induction ks with
  | nil => rfl
  | cons k ks ih => simp [relayRun, relayStep, ih]

/-- C8: Once cascading shutdown has begun, receiving a second signal of
the same kind is ignored: the relay state is unchanged and no action
(no timer restart, no re-sent signal) is produced, so over any run the
cascade is triggered at most once: a run whose first received signal is
`k` produces exactly the one cascade action for `k`. -/
theorem shutdown_cascade_once (k : Sig) (ks : List Sig) :
    relayStep (relayStep ⟨false⟩ k).1 k = ((relayStep ⟨false⟩ k).1, []) ∧
    (relayRun ⟨false⟩ (k :: ks)).2 = [RelayAction.cascade k] := by
  constructor
  · simp [relayStep]
  · simp [relayRun, relayStep, relayRun_shuttingDown]

/-- C3: For every child sent a graceful signal that has not exited
within `kill_timeout` seconds, the supervisor unconditionally sends
SIGKILL (forceful, non-catchable), at a time no earlier than
`kill_timeout` seconds and no later than `kill_timeout + eps` after the
graceful signal, for every tolerance `eps`. -/
theorem escalation_kill_bounds (kill_timeout sentAt : Nat)
    (childExitsAt : Option Nat)
    (hstuck : ∀ t, childExitsAt = some t → sentAt + kill_timeout < t) :
    ∃ kt, escalation kill_timeout sentAt childExitsAt = some (Sig.SIGKILL, kt) ∧
      sentAt + kill_timeout ≤ kt ∧
      ∀ eps : Nat, kt ≤ sentAt + kill_timeout + eps := by
  cases childExitsAt with
  | none =>
    exact ⟨sentAt + kill_timeout, rfl, le_refl _, fun eps => Nat.le_add_right _ _⟩
  | some t =>
    have ht := hstuck t rfl
    refine ⟨sentAt + kill_timeout, ?_, le_refl _, fun eps => Nat.le_add_right _ _⟩
    simp [escalation, Nat.not_le.mpr ht]

/-- Witness for C3 at kill_timeout 2, signal sent at 5, child ignoring
the signal. -/
theorem escalation_kill_bounds_witness :
    ∃ kt, escalation 2 5 none = some (Sig.SIGKILL, kt) ∧
      5 + 2 ≤ kt ∧ ∀ eps : Nat, kt ≤ 5 + 2 + eps :=
  escalation_kill_bounds 2 5 none (fun _ h => nomatch h)

theorem findIdx?_isSome_of_mem {α : Type} {p : α → Bool} {l : List α}
    {c : α} (hc : c ∈ l) (hpc : p c = true) :
    (l.findIdx? p).isSome = true := by
  cases h : l.findIdx? p with
  | some i => rfl
  | none =>
    have hall := List.findIdx?_eq_none_iff.mp h c hc
    rw [hpc] at hall
    cases hall

/-- C5: Whenever the explicit label count differs from the command
count, or some command string is empty or whitespace-only, resolution
fails with a ConfigurationError, the orchestrator exits non-zero, and
no command is spawned. -/
theorem config_error_no_spawn (labels : Option (List String))
    (commandAsLabel cont : Bool) (exit : CommandSpec → Int)
    (commands : List String)
    (hbad : (∃ ls, labels = some ls ∧ ls.length ≠ commands.length) ∨
            (∃ c ∈ commands, isBlankCommand c = true)) :
    (∃ e, resolveSpecs labels commandAsLabel commands = Except.error e) ∧
    (orchestrateSerial labels commandAsLabel cont exit commands).spawned = [] ∧
    (orchestrateSerial labels commandAsLabel cont exit commands).exitCode ≠ 0 := by
  have herr : ∃ e, resolveSpecs labels commandAsLabel commands = Except.error e := by
    rcases hbad with ⟨ls, hls, hne⟩ | ⟨c, hcmem, hcblank⟩
    · subst hls
      exact ⟨ConfigurationError.labelCountMismatch ls.length commands.length,
        by simp [resolveSpecs, hne]⟩
    · have hsome := findIdx?_isSome_of_mem hcmem hcblank
      obtain ⟨i, hi⟩ := Option.isSome_iff_exists.mp hsome
      cases labels with
      | none =>
        exact ⟨ConfigurationError.emptyCommand i, by simp [resolveSpecs, hi]⟩
      | some ls =>
        by_cases hne : ls.length ≠ commands.length
        · exact ⟨ConfigurationError.labelCountMismatch ls.length commands.length,
            by simp [resolveSpecs, hne]⟩
        · exact ⟨ConfigurationError.emptyCommand i,
            by simp [resolveSpecs, hne, hi]⟩
  obtain ⟨e, he⟩ := herr
  refine ⟨⟨e, he⟩, ?_, ?_⟩ <;> simp [orchestrateSerial, he]

/-- Witness for C5: one explicit label with two commands. -/
theorem config_error_no_spawn_witness :
    (∃ e, resolveSpecs (some ["a"]) false ["x", "y"] = Except.error e) ∧
    (orchestrateSerial (some ["a"]) false false (fun _ => 0) ["x", "y"]).spawned = [] ∧
    (orchestrateSerial (some ["a"]) false false (fun _ => 0) ["x", "y"]).exitCode ≠ 0 :=
  config_error_no_spawn (some ["a"]) false false (fun _ => 0) ["x", "y"]
    (Or.inl ⟨["a"], rfl, by decide⟩)

theorem length_le_maxLabelWidth {labels : List String} {l : String}
    (hl : l ∈ labels) : l.length ≤ maxLabelWidth labels := by
  induction labels with
  | nil => cases hl
  | cons a t ih =>
    rcases List.mem_cons.mp hl with rfl | hlt
    · exact le_max_left _ _
    · exact le_trans (ih hlt) (le_max_right _ _)

theorem padLabel_length {w : Nat} {l : String} (hw : l.length ≤ w) :
    (padLabel w l).length = w := by
  have hmk : (String.mk (List.replicate (w - l.length) ' ')).length
      = w - l.length := by
    show (List.replicate (w - l.length) ' ').length = w - l.length
    exact List.length_replicate _ _
  rw [padLabel, String.length_append, hmk]
  omega

/-- C6: In interleaved mode with label display enabled, each output line
is `[<label>] <line>` and each completion is
`[<label>] exit status: <code>`, with every label right-padded so that
all label brackets have width equal to the longest label's width. -/
theorem interleaved_label_padding (labels : List String) (l : String)
    (hl : l ∈ labels) :
    (padLabel (maxLabelWidth labels) l).length = maxLabelWidth labels ∧
    (∀ l2 ∈ labels, (padLabel (maxLabelWidth labels) l).length =
      (padLabel (maxLabelWidth labels) l2).length) ∧
    (∀ line, fmtLine (maxLabelWidth labels) l line =
      "[" ++ padLabel (maxLabelWidth labels) l ++ "] " ++ line) ∧
    (∀ code, fmtExit (maxLabelWidth labels) l code =
      "[" ++ padLabel (maxLabelWidth labels) l ++ "] exit status: " ++ toString code) := by
  refine ⟨padLabel_length (length_le_maxLabelWidth hl), ?_, ?_, ?_⟩
  · intro l2 hl2
    rw [padLabel_length (length_le_maxLabelWidth hl),
      padLabel_length (length_le_maxLabelWidth hl2)]
  · intro line
    rfl
  · intro code
    rfl

/-- Witness for C6 with labels "a" and "bb". -/
theorem interleaved_label_padding_witness :
    (padLabel (maxLabelWidth ["a", "bb"]) "a").length = maxLabelWidth ["a", "bb"] ∧
    (∀ l2 ∈ ["a", "bb"], (padLabel (maxLabelWidth ["a", "bb"]) "a").length =
      (padLabel (maxLabelWidth ["a", "bb"]) l2).length) ∧
    (∀ line, fmtLine (maxLabelWidth ["a", "bb"]) "a" line =
      "[" ++ padLabel (maxLabelWidth ["a", "bb"]) "a" ++ "] " ++ line) ∧
    (∀ code, fmtExit (maxLabelWidth ["a", "bb"]) "a" code =
      "[" ++ padLabel (maxLabelWidth ["a", "bb"]) "a" ++ "] exit status: " ++ toString code) :=
  interleaved_label_padding ["a", "bb"] "a" (by simp)

theorem snd_getD_map_notRun (l : List CommandSpec) (n : Nat) :
    ((l.map fun r => (r, CmdReport.notRun)).getD n dRep).2 = CmdReport.notRun := by
  induction l generalizing n with
  | nil => cases n <;> rfl
  | cons a t ih =>
    cases n with
    | zero => rfl
    | succ n => exact ih n

theorem spawnedOf_map_notRun (l : List CommandSpec) :
    spawnedOf (l.map fun r => (r, CmdReport.notRun)) = [] := by
  induction l with
  | nil => rfl
  | cons a t ih => simp [spawnedOf, List.filterMap_cons]

theorem spawnedOf_cons_exited (s : CommandSpec) (c : Int)
    (tl : List (CommandSpec × CmdReport)) :
    spawnedOf ((s, CmdReport.exited c) :: tl) = s :: spawnedOf tl := rfl

/-- C2: In every serial run with continue-on-failure false, if the
command at index i exits non-zero, then every later index is reported
as not run (never as a failure), and the spawned commands are exactly
the first i+1 commands: no command at an index greater than i is ever
spawned. -/
theorem serial_stop_on_failure (exit : CommandSpec → Int)
    (specs : List CommandSpec) (i j : Nat) (c : Int)
    (hij : i < j) (hj : j < specs.length)
    (hfail : ((serialReports false exit specs).getD i dRep).2 = CmdReport.exited c)
    (hc : c ≠ 0) :
    ((serialReports false exit specs).getD j dRep).2 = CmdReport.notRun ∧
    spawnedOf (serialReports false exit specs) = specs.take (i + 1) := by
  induction specs generalizing i j with
  | nil => simp at hj
  | cons s rest ih =>
    by_cases hs : exit s = 0
    · have hexp : serialReports false exit (s :: rest)
          = (s, CmdReport.exited (exit s)) :: serialReports false exit rest := by
        simp [serialReports, hs]
      cases i with
      | zero =>
        rw [hexp, List.getD_cons_zero] at hfail
        simp at hfail
        rw [hs] at hfail
        exact absurd hfail.symm hc
      | succ i2 =>
        cases j with
        | zero => omega
        | succ j2 =>
          have hj2 : j2 < rest.length := by
            simp at hj
            omega
          have hij2 : i2 < j2 := by omega
          rw [hexp, List.getD_cons_succ] at hfail
          obtain ⟨h1, h2⟩ := ih i2 j2 hij2 hj2 hfail
          constructor
          · rw [hexp, List.getD_cons_succ]
            exact h1
          · rw [hexp, spawnedOf_cons_exited, h2, List.take_succ_cons]
    · have hexp : serialReports false exit (s :: rest)
          = (s, CmdReport.exited (exit s)) :: rest.map fun r => (r, CmdReport.notRun) := by
        simp [serialReports, hs]
      cases i with
      | zero =>
        cases j with
        | zero => omega
        | succ j2 =>
          constructor
          · rw [hexp, List.getD_cons_succ]
            exact snd_getD_map_notRun rest j2
          · rw [hexp, spawnedOf_cons_exited, spawnedOf_map_notRun,
              List.take_succ_cons, List.take_zero]
      | succ i2 =>
        rw [hexp, List.getD_cons_succ, snd_getD_map_notRun rest i2] at hfail
        simp at hfail

/-- Witness for C2: two commands, the first exits 1, the second is
reported not run and never spawned. -/
theorem serial_stop_on_failure_witness :
    ((serialReports false (fun s => if s.index = 0 then 1 else 0)
        [⟨"a", "x", 0⟩, ⟨"b", "y", 1⟩]).getD 1 dRep).2 = CmdReport.notRun ∧
    spawnedOf (serialReports false (fun s => if s.index = 0 then 1 else 0)
        [⟨"a", "x", 0⟩, ⟨"b", "y", 1⟩])
      = [(⟨"a", "x", 0⟩ : CommandSpec), ⟨"b", "y", 1⟩].take (0 + 1) :=
  serial_stop_on_failure (fun s => if s.index = 0 then 1 else 0)
    [⟨"a", "x", 0⟩, ⟨"b", "y", 1⟩] 0 1 1 (by decide) (by decide) (by decide) (by decide)

theorem foldl_muxStep_flushed_fst (events : List MuxEvent) (st : MuxState) :
    ((events.foldl muxStep st).flushed).map Prod.fst =
      st.flushed.map Prod.fst ++ events.filterMap completeOwner := by
  induction events generalizing st with
  | nil => simp
  | cons e es ih =>
    cases e with
    | chunk o payload =>
      rw [List.foldl_cons, ih]
      simp [muxStep, completeOwner, List.filterMap_cons]
    | complete o =>
      rw [List.foldl_cons, ih]
      simp [muxStep, completeOwner, List.filterMap_cons]

theorem owner_mem_of_mem_annotated {blocks : List (String × List Nat)}
    {a : String} {z : Nat} (h : (a, z) ∈ annotated blocks) :
    a ∈ blocks.map Prod.fst := by
  induction blocks with
  | nil => cases h
  | cons p rest ih =>
    have hsplit : annotated (p :: rest)
        = (p.2.map fun v => (p.1, v)) ++ annotated rest := rfl
    rw [hsplit] at h
    rcases List.mem_append.mp h with h1 | h2
    · obtain ⟨v, hv, heq⟩ := List.mem_map.mp h1
      simp only [Prod.mk.injEq] at heq
      rw [List.map_cons]
      exact List.mem_cons.mpr (Or.inl heq.1.symm)
    · rw [List.map_cons]
      exact List.mem_cons.mpr (Or.inr (ih h2))

theorem annotated_contiguous (blocks : List (String × List Nat))
    (hnd : (blocks.map Prod.fst).Nodup) (i j k : Nat) (a b : String)
    (x y z : Nat) (hij : i ≤ j) (hjk : j ≤ k)
    (hi : (annotated blocks).get? i = some (a, x))
    (hj : (annotated blocks).get? j = some (b, y))
    (hk : (annotated blocks).get? k = some (a, z)) :
    b = a := by
  induction blocks generalizing i j k with
  | nil => simp [annotated] at hi
  | cons p rest ih =>
    have hsplit : annotated (p :: rest)
        = (p.2.map fun v => (p.1, v)) ++ annotated rest := rfl
    rw [hsplit] at hi hj hk
    rw [List.map_cons] at hnd
    have hnd1 := (List.nodup_cons.mp hnd).1
    have hnd2 := (List.nodup_cons.mp hnd).2
    by_cases hin : i < (p.2.map fun v => (p.1, v)).length
    · rw [List.get?_append hin, List.get?_map] at hi
      obtain ⟨v, hv, hveq⟩ := Option.map_eq_some'.mp hi
      simp only [Prod.mk.injEq] at hveq
      have ha : a = p.1 := hveq.1.symm
      by_cases hkn : k < (p.2.map fun v => (p.1, v)).length
      · have hjn : j < (p.2.map fun v => (p.1, v)).length := lt_of_le_of_lt hjk hkn
        rw [List.get?_append hjn, List.get?_map] at hj
        obtain ⟨w, hw, hweq⟩ := Option.map_eq_some'.mp hj
        simp only [Prod.mk.injEq] at hweq
        rw [ha]
        exact hweq.1.symm
      · push_neg at hkn
        rw [List.get?_append_right hkn] at hk
        have hmem : a ∈ rest.map Prod.fst :=
          owner_mem_of_mem_annotated (List.get?_mem hk)
        rw [ha] at hmem
        exact absurd hmem hnd1
    · push_neg at hin
      have hjn : (p.2.map fun v => (p.1, v)).length ≤ j := le_trans hin hij
      have hkn : (p.2.map fun v => (p.1, v)).length ≤ k := le_trans hjn hjk
      rw [List.get?_append_right hin] at hi
      rw [List.get?_append_right hjn] at hj
      rw [List.get?_append_right hkn] at hk
      exact ih hnd2 _ _ _ (by omega) (by omega) hi hj hk

/-- C7: In every well-formed concurrent run with output aggregation
enabled, the final terminal stream is a sequence of contiguous
per-command blocks: whenever positions i ≤ j ≤ k hold bytes with the
byte at i and the byte at k owned by command B, the byte at j is also
owned by B — no byte of a distinct command A ever appears between two
bytes of B. -/
theorem aggregated_no_interleaving (events : List MuxEvent)
    (hwf : MuxWellFormed events) (i j k : Nat) (A B : String)
    (x y z : Nat) (hij : i ≤ j) (hjk : j ≤ k)
    (hi : (finalStream events).get? i = some (B, x))
    (hj : (finalStream events).get? j = some (A, y))
    (hk : (finalStream events).get? k = some (B, z)) :
    A = B := by
  have hfst : ((muxRun events).flushed).map Prod.fst
      = events.filterMap completeOwner := by
    have hfold := foldl_muxStep_flushed_fst events ⟨[], []⟩
    simpa [muxRun] using hfold
  have hnd : ((muxRun events).flushed.map Prod.fst).Nodup := by
    rw [hfst]
    exact hwf
  exact annotated_contiguous _ hnd i j k B A x y z hij hjk hi hj hk

/-- Witness for C7 on a run where commands "a" and "b" interleave
chunks before completing. -/
theorem aggregated_no_interleaving_witness :
    MuxWellFormed wMuxEvents ∧
    (finalStream wMuxEvents).get? 0 = some ("a", 1) ∧
    (finalStream wMuxEvents).get? 1 = some ("a", 3) ∧
    ("a" : String) = "a" :=
  ⟨by decide, by decide, by decide,
   aggregated_no_interleaving wMuxEvents (by decide) 0 1 1 "a" "a" 1 3 3
     (by decide) (by decide) (by decide) (by decide) (by decide)⟩

theorem earliest_mem (l : List Nat) : ∀ u, earliest l = some u → u ∈ l := by
  induction l with
  | nil => intro u h; cases h
  | cons t ts ih =>
    intro u h
    cases hts : earliest ts with
    | none =>
      simp only [earliest, hts] at h
      injection h with h
      exact h ▸ List.mem_cons_self t ts
    | some v =>
      simp only [earliest, hts] at h
      injection h with h
      rcases le_total t v with htv | hvt
      · rw [min_eq_left htv] at h
        exact h ▸ List.mem_cons_self t ts
      · rw [min_eq_right hvt] at h
        exact List.mem_cons.mpr (Or.inr (h ▸ ih v hts))

theorem earliest_le_of_mem {l : List Nat} {x : Nat} (hx : x ∈ l) :
    ∃ m, earliest l = some m ∧ m ≤ x := by
  induction l with
  | nil => cases hx
  | cons t ts ih =>
    rcases List.mem_cons.mp hx with rfl | hxt
    · cases hts : earliest ts with
      | none => exact ⟨x, by simp [earliest, hts], le_refl x⟩
      | some u => exact ⟨min x u, by simp [earliest, hts], min_le_left _ _⟩
    · obtain ⟨m, hm, hmx⟩ := ih hxt
      exact ⟨min t m, by simp [earliest, hm], le_trans (min_le_right t m) hmx⟩

theorem earliest_eq_of_lb (l : List Nat) (a : Nat) :
    a ∈ l → (∀ x ∈ l, a ≤ x) → earliest l = some a := by
  induction l with
  | nil => intro ha _; cases ha
  | cons t ts ih =>
    intro ha hlb
    rcases List.mem_cons.mp ha with rfl | hat
    · cases hts : earliest ts with
      | none => simp [earliest, hts]
      | some u =>
        have hu : u ∈ ts := earliest_mem ts u hts
        have hau : a ≤ u := hlb u (List.mem_cons.mpr (Or.inr hu))
        simp [earliest, hts, min_eq_left hau]
    · have hts2 : earliest ts = some a :=
        ih hat (fun x hx => hlb x (List.mem_cons.mpr (Or.inr hx)))
      have hta : a ≤ t := hlb t (List.mem_cons_self t ts)
      simp [earliest, hts2, min_eq_right hta]

theorem mem_blockLog {signals : List (Nat × BlockSig)} {t : Nat} {s : BlockSig}
    (hmem : (t, s) ∈ signals)
    (halive : blockAliveAt (signals.map Prod.fst) t = true) :
    (t, handlerMessage s) ∈ blockLog signals := by
  rw [blockLog]
  apply List.mem_filterMap.mpr
  refine ⟨(t, s), hmem, ?_⟩
  simp [halive]

/-- C10: The block.js child never terminates on its own absent a signal
(no exit time, and the 1000 ms interval always has a future firing that
prints "ping"); each received signal schedules its own independent
5000 ms exit timer, the process exits 5 seconds after the first signal,
and later signals never extend its lifetime (the exit time is at most
every signal's receipt time plus 5000 ms). -/
theorem block_keepalive_first_signal_exit (sigTimes : List Nat) (t : Nat) :
    blockExitTime [] = none ∧
    (∀ u : Nat, ∃ v, u ≤ v ∧ isPingTime v = true) ∧
    (t ∈ sigTimes → (∀ u ∈ sigTimes, t ≤ u) →
      blockExitTime sigTimes = some (t + exitDelayMs)) ∧
    (∀ u ∈ sigTimes, ∃ te, blockExitTime sigTimes = some te ∧ te ≤ u + exitDelayMs) := by
  refine ⟨rfl, ?_, ?_, ?_⟩
  · intro u
    refine ⟨pingPeriodMs * (u / pingPeriodMs + 1), ?_, ?_⟩
    · simp only [pingPeriodMs]
      omega
    · simp only [isPingTime, pingPeriodMs, Bool.and_eq_true, decide_eq_true_eq]
      omega
  · intro hmem hlb
    simp only [blockExitTime, scheduledExitTimes]
    apply earliest_eq_of_lb
    · exact List.mem_map_of_mem _ hmem
    · intro x hx
      obtain ⟨u, hu, rfl⟩ := List.mem_map.mp hx
      exact Nat.add_le_add_right (hlb u hu) _
  · intro u hu
    obtain ⟨m, hm, hmu⟩ :=
      earliest_le_of_mem (List.mem_map_of_mem (fun w => w + exitDelayMs) hu)
    exact ⟨m, hm, hmu⟩

/-- Witness for C10: signals at 3 and 7 ms; the process exits at
3 + 5000 ms. -/
theorem block_keepalive_first_signal_exit_witness :
    blockExitTime [3, 7] = some (3 + exitDelayMs) :=
  (block_keepalive_first_signal_exit [3, 7] 3).2.2.1 (by decide) (by decide)

/-- Counterexample to C9 as stated: with signals received at 0 ms and
1000 ms (the second while the process is still running), the process
exits at 5000 ms, not 5000 ms after the second receipt: it does not
continue running for 5000 ms after every receipt. -/
theorem block_second_signal_not_full_grace :
    blockAliveAt [0, 1000] 1000 = true ∧
    blockExitTime [0, 1000] = some 5000 ∧
    blockAliveAt [0, 1000] (1000 + exitDelayMs - 1) = false ∧
    (1000 : Nat) + exitDelayMs ≠ 5000 := by decide

/-- C9 (amended): for every signal received while the process is still
running, the default fatal behavior is replaced: the handler logs its
message and schedules an exit with code 0 for 5000 ms later; the
process exits with code 0 at the earliest scheduled exit time (hence no
later than 5000 ms after this receipt), and when this receipt is the
first (or only) signal, the process keeps running until exactly
5000 ms after it. -/
theorem block_signal_replaced_behavior (signals : List (Nat × BlockSig))
    (t : Nat) (s : BlockSig) (hmem : (t, s) ∈ signals)
    (halive : blockAliveAt (signals.map Prod.fst) t = true) :
    (t, handlerMessage s) ∈ blockLog signals ∧
    t + exitDelayMs ∈ scheduledExitTimes (signals.map Prod.fst) ∧
    (∃ te, blockExitTime (signals.map Prod.fst) = some te ∧
      te ≤ t + exitDelayMs ∧
      blockExitCode (signals.map Prod.fst) = some 0) ∧
    ((∀ u ∈ signals.map Prod.fst, t ≤ u) →
      blockExitTime (signals.map Prod.fst) = some (t + exitDelayMs) ∧
      ∀ w, w < t + exitDelayMs →
        blockAliveAt (signals.map Prod.fst) w = true) := by
  have htmem : t ∈ signals.map Prod.fst := List.mem_map_of_mem Prod.fst hmem
  refine ⟨mem_blockLog hmem halive, ?_, ?_, ?_⟩
  · exact List.mem_map_of_mem _ htmem
  · obtain ⟨m, hm, hmu⟩ :=
      earliest_le_of_mem (List.mem_map_of_mem (fun w => w + exitDelayMs) htmem)
    have hm2 : blockExitTime (signals.map Prod.fst) = some m := hm
    exact ⟨m, hm2, hmu, by simp [blockExitCode, hm2]⟩
  · intro hlb
    have hex : blockExitTime (signals.map Prod.fst) = some (t + exitDelayMs) := by
      simp only [blockExitTime, scheduledExitTimes]
      apply earliest_eq_of_lb
      · exact List.mem_map_of_mem _ htmem
      · intro x hx
        obtain ⟨u, hu, rfl⟩ := List.mem_map.mp hx
        exact Nat.add_le_add_right (hlb u hu) _
    refine ⟨hex, ?_⟩
    intro w hw
    simp only [blockAliveAt, hex]
    exact decide_eq_true hw

/-- Witness for the amended C9: a single SIGINT at time 0. -/
theorem block_signal_replaced_behavior_witness :
    ((0 : Nat), handlerMessage BlockSig.sigint)
      ∈ blockLog [((0 : Nat), BlockSig.sigint)] ∧
    0 + exitDelayMs
      ∈ scheduledExitTimes ([((0 : Nat), BlockSig.sigint)].map Prod.fst) ∧
    (∃ te, blockExitTime ([((0 : Nat), BlockSig.sigint)].map Prod.fst) = some te ∧
      te ≤ 0 + exitDelayMs ∧
      blockExitCode ([((0 : Nat), BlockSig.sigint)].map Prod.fst) = some 0) ∧
    ((∀ u ∈ [((0 : Nat), BlockSig.sigint)].map Prod.fst, 0 ≤ u) →
      blockExitTime ([((0 : Nat), BlockSig.sigint)].map Prod.fst)
        = some (0 + exitDelayMs) ∧
      ∀ w, w < 0 + exitDelayMs →
        blockAliveAt ([((0 : Nat), BlockSig.sigint)].map Prod.fst) w = true) :=
  block_signal_replaced_behavior [((0 : Nat), BlockSig.sigint)] 0 BlockSig.sigint
    (by decide) (by decide)
